import Mathlib

/-!
Shallow embedding of the simulation engine of `src/app.js` (Dynamic Memory
Management Visualizer): the paging engine (`stepPaging`), the segmentation
engine (`stepSegmentation`), the virtual memory engine (`stepVirtual`),
the shared mutable state object (`state`), `resetCommon` and the engine
part of `load`.  Presentation-layer calls (logging, DOM rendering, canvas
chart drawing, timers) have no effect on engine state and are dropped; the
chart history array `chartData` is kept because reset/load clear it and a
step appends to it.
-/

namespace MemVis

/-- Replacement policy, the `state.algo` field (string `FIFO` or `LRU` in JS). -/
inductive Algo where
  | FIFO
  | LRU
deriving DecidableEq, Repr

/-- A parsed reference token as produced by `parseRefs`: numeric tokens are
stored as numbers, non-numeric tokens are kept as strings.  Number literals in
the scenarios of interest are integers, so numbers are modelled as `Int`. -/
inductive RVal where
  | num (n : Int)
  | str (s : String)
deriving DecidableEq, Repr

/-- A JS number that may be `NaN`: `none` models `NaN`, `some n` a finite
integer value.  `Number(x)` of a non-numeric string is `NaN`, and `NaN`
compares false under both `<` and `>` and is a legitimate object key. -/
abbrev JsNum := Option Int

/-- `Number(r)` applied to a stored reference value: a stored number is itself,
a stored string was exactly a token that failed numeric parsing at load time,
so `Number` of it is `NaN` (`none`). -/
def jsNumber : RVal → JsNum
  | .num n => some n
  | .str _ => none

/-- JS `a < b` on two possibly-`NaN` numbers: any comparison with `NaN`
is false. -/
def jsLtI : JsNum → JsNum → Bool
  | some a, some b => decide (a < b)
  | _, _ => false

/-- `Array.prototype.indexOf`: index of the first element equal to `a`,
`none` when absent (JS returns `-1`). -/
def jsIndexOf {α : Type} [DecidableEq α] (a : α) : List α → Option Nat
  | [] => none
  | x :: xs => if x = a then some 0 else (jsIndexOf a xs).map (· + 1)

/-- JS `a < b` where `a` is an array read (`undefined` out of bounds, modelled
`none`) and `b` is the running minimum (`Infinity` modelled `none`):
`undefined < x` is false, `t < Infinity` is true. -/
def jsLtMin : Option Nat → Option Nat → Bool
  | some a, some b => decide (a < b)
  | some _, none => true
  | none, _ => false

/-- The LRU victim scan of `stepPaging`/`stepVirtual`:
`for i = 0 .. cap-1: if lruTime[i] < min then min := lruTime[i]; replaceIndex := i`,
folded over the list of loop indices with accumulator
`(replaceIndex, min)`; `min` starts at `Infinity` (`none`). -/
def lruGo (lt : List Nat) : List Nat → Nat × Option Nat → Nat × Option Nat
  | [], acc => acc
  | i :: is, acc =>
      lruGo lt is (if jsLtMin (lt.get? i) acc.2 then (i, lt.get? i) else acc)

/-- The final `replaceIndex` of the LRU victim scan (initial
`replaceIndex = 0`, `min = Infinity`). -/
def lruSelect (lt : List Nat) (cap : Nat) : Nat :=
  (lruGo lt (List.range cap) (0, none)).1

/-- Point update of a page-table object: `pt[k] = v` creates or overwrites
the entry for key `k`.  Keys are `JsNum` because `NaN` coerces to the
property key string `NaN` and behaves as an ordinary key. -/
def ptSet (pt : JsNum → Option Int) (k : JsNum) (v : Int) : JsNum → Option Int :=
  fun q => if q = k then some v else pt q

/-- The test `pt.hasOwnProperty(k) && pt[k] !== -1` of `stepVirtual`,
returning the valid frame index when it succeeds. -/
def vmLookup (pt : JsNum → Option Int) (k : JsNum) : Option Int :=
  match pt k with
  | some f => if f = -1 then none else some f
  | none => none

/-- The eviction bookkeeping of `stepVirtual` lines 563-565: with `oldPage`
the content of the victim frame, `if (oldPage !== null &&
pageTable.hasOwnProperty(oldPage)) pageTable[oldPage] = -1`. -/
def ptUnmapEvicted (pt : JsNum → Option Int) (oldPage : Option JsNum) : JsNum → Option Int :=
  match oldPage with
  | some op => if (pt op).isSome then ptSet pt op (-1) else pt
  | none => pt

/-- The shared mutable `state` object of `src/app.js` (lines 7-29), minus the
purely presentational `module` selector and the autoplay `timer`/`running`
scheduling fields, which no engine transition reads.
Frame slots hold `none` for JS `null`.  `pageTable` maps a page key to
`none` (no entry ever created) or `some f` (entry with value `f`, where
`-1` means unmapped).  `segments` maps a segment name to `(base, limit)`.
`chartData` records `1` per hit and `0` per fault. -/
structure State where
  capacity : Nat
  frames : List (Option RVal)
  refs : List RVal
  index : Nat
  faults : Nat
  hits : Nat
  processed : Nat
  algo : Algo
  fifoPointer : Nat
  lruTime : List Nat
  segments : String → Option (Int × Int)
  pageSize : Int
  pageTable : JsNum → Option Int
  physFrames : List (Option JsNum)
  physCapacity : Nat
  chartData : List Nat

/-- The initial value of the `state` object literal. -/
def initState : State where
  capacity := 3
  frames := []
  refs := []
  index := 0
  faults := 0
  hits := 0
  processed := 0
  algo := .FIFO
  fifoPointer := 0
  lruTime := []
  segments := fun _ => none
  pageSize := 100
  pageTable := fun _ => none
  physFrames := []
  physCapacity := 3
  chartData := []

/-- `resetCommon()` (lines 102-120): zeroes the counters, the sequence index
and the FIFO pointer, clears the chart history, and touches nothing else
(frames, refs, lruTime, segments, pageTable, physFrames all survive). -/
def resetCommon (s : State) : State :=
  { s with faults := 0, hits := 0, processed := 0, index := 0, fifoPointer := 0,
           chartData := [] }

/-- The paging branch of `load()` (lines 129-136): `resetCommon` then fresh
frames of size `capacity`, fresh zero recency stamps, and the parsed
reference sequence.  Input parsing (`Number(...) || 3`, `parseRefs`) is the
external textual encoding; the already-parsed values are taken as arguments. -/
def loadPaging (capacity : Nat) (refs : List RVal) (algo : Algo) (s : State) : State :=
  { resetCommon s with
      algo := algo
      capacity := capacity
      frames := List.replicate capacity none
      lruTime := List.replicate capacity 0
      refs := refs }

/-- The segmentation branch of `load()` (lines 138-151): `resetCommon` then a
freshly built segment table.  The `name:base:limit` text parsing is the
external encoding; the resulting table is taken as an argument. -/
def loadSegmentation (segs : String → Option (Int × Int)) (algo : Algo) (s : State) : State :=
  { resetCommon s with
      algo := algo
      segments := segs }

/-- The virtual branch of `load()` (lines 153-162): `resetCommon` then fresh
physical frames, an empty page table, fresh zero recency stamps, and the
parsed reference sequence. -/
def loadVirtual (pageSize : Int) (physCapacity : Nat) (refs : List RVal) (algo : Algo)
    (s : State) : State :=
  { resetCommon s with
      algo := algo
      pageSize := pageSize
      physCapacity := physCapacity
      physFrames := List.replicate physCapacity none
      pageTable := fun _ => none
      lruTime := List.replicate physCapacity 0
      refs := refs }

/-- The reference currently under the cursor, the local
`const ref = state.refs[state.index]` of `stepPaging`. -/
def curRef (s : State) : RVal := s.refs.getD s.index (.num 0)

/-- The page number of the reference currently under the cursor, the locals
`ref = Number(state.refs[state.index])` and
`pageNum = Math.floor(ref / state.pageSize)` of `stepVirtual` (floor
division; `NaN` propagates). -/
def curPage (s : State) : JsNum :=
  (jsNumber (curRef s)).map (fun n => Int.fdiv n s.pageSize)

/-- The victim chosen on the replacement path of `stepPaging`/`stepVirtual`
(which pass `capacity` resp. `physCapacity`):
`replaceIndex = fifoPointer % cap` for FIFO, the minimum-stamp scan for LRU. -/
def victimOf (s : State) (cap : Nat) : Nat :=
  if s.algo = .FIFO then s.fifoPointer % cap else lruSelect s.lruTime cap

/-- Outcome of one `stepPaging` call, as observable from logs and rendering:
exhausted sequence, hit in a frame, fault filling a free frame, or fault
replacing a victim frame (carrying the evicted value). -/
inductive PagingOutcome where
  | exhausted
  | hit (slot : Nat)
  | fill (slot : Nat)
  | replace (slot : Nat) (evicted : Option RVal)
deriving DecidableEq, Repr

/-- `stepPaging()` (lines 398-468).  Rendering and logging calls are dropped;
everything that touches `state` or `chartData` is kept, in source order:
exhaustion guard, `processed++`, hit lookup by `indexOf`, LRU-guarded stamp
updates, free-slot fill by `indexOf(null)`, FIFO/LRU victim selection
(`victimOf`), chart push and `index++`. -/
def stepPaging (s : State) : State × PagingOutcome :=
  if s.refs.length ≤ s.index then (s, .exhausted)
  else
    match jsIndexOf (some (curRef s)) s.frames with
    | some fIndex =>
        ({ s with processed := s.processed + 1, hits := s.hits + 1,
                  lruTime := if s.algo = .LRU then s.lruTime.set fIndex (s.processed + 1)
                             else s.lruTime,
                  chartData := s.chartData ++ [1],
                  index := s.index + 1 },
         .hit fIndex)
    | none =>
        match jsIndexOf none s.frames with
        | some free =>
            ({ s with processed := s.processed + 1, faults := s.faults + 1,
                      frames := s.frames.set free (some (curRef s)),
                      lruTime := if s.algo = .LRU then s.lruTime.set free (s.processed + 1)
                                 else s.lruTime,
                      chartData := s.chartData ++ [0],
                      index := s.index + 1 },
             .fill free)
        | none =>
            ({ s with processed := s.processed + 1, faults := s.faults + 1,
                      frames := s.frames.set (victimOf s s.capacity) (some (curRef s)),
                      fifoPointer := if s.algo = .FIFO then (s.fifoPointer + 1) % s.capacity
                                     else s.fifoPointer,
                      lruTime := if s.algo = .LRU then
                                   s.lruTime.set (victimOf s s.capacity) (s.processed + 1)
                                 else s.lruTime,
                      chartData := s.chartData ++ [0],
                      index := s.index + 1 },
             .replace (victimOf s s.capacity) (s.frames.getD (victimOf s s.capacity) none))

/-- Outcome of one `stepSegmentation` call: unknown segment name, offset out
of range, or a successful translation carrying the physical address
(`none` when the address is `NaN` because the offset was `NaN`). -/
inductive SegOutcome where
  | notFound
  | outOfRange
  | translated (phys : JsNum)
deriving DecidableEq, Repr

/-- Property names every plain object literal inherits from
`Object.prototype` (the ECMAScript intrinsic members plus the Annex B
accessors): the JS `in` operator answers true for these on `state.segments`
even when no such segment was loaded. -/
def protoProps : List String :=
  ["constructor", "hasOwnProperty", "isPrototypeOf", "propertyIsEnumerable",
   "toLocaleString", "toString", "valueOf", "__proto__", "__defineGetter__",
   "__defineSetter__", "__lookupGetter__", "__lookupSetter__"]

/-- The test `segName in state.segments` of line 482: JS `in` walks the
prototype chain, so it is true for an own property (a loaded segment) or for
a name inherited from `Object.prototype`. -/
def jsIn (segs : String → Option (Int × Int)) (name : String) : Bool :=
  (segs name).isSome || decide (name ∈ protoProps)

/-- `stepSegmentation()` (lines 471-506).  The raw `name:offset` text is split
by the function itself; the already-split pieces are taken as arguments, with
`offset = Number(offStr)` possibly `NaN` (`none`) when the offset text is not
numeric or missing.  The empty-input early return is a driver-level no-op and
is not a step.  Order as in source: membership test `segName in
state.segments` (`jsIn`, prototype chain included; fault with `faults++` only
when it fails), then `seg = state.segments[segName]` — the loaded
`(base, limit)` record for an own property, or an inherited
`Object.prototype` member whose `.base` and `.limit` read as `undefined` —
then the range check `offset < 0 || offset > seg.limit` with JS
`NaN`/`undefined` comparison semantics (fault, `faults++` only), else
`phys = seg.base + offset` (`NaN` when either side is not a number),
`processed++`, `hits++`. -/
def stepSegmentation (segName : String) (offset : JsNum) (s : State) : State × SegOutcome :=
  if jsIn s.segments segName = false then
    ({ s with faults := s.faults + 1 }, .notFound)
  else
    match s.segments segName with
    | some (base, limit) =>
        if jsLtI offset (some 0) || jsLtI (some limit) offset then
          ({ s with faults := s.faults + 1 }, .outOfRange)
        else
          ({ s with processed := s.processed + 1, hits := s.hits + 1 },
           .translated (offset.map (fun o => base + o)))
    | none =>
        if jsLtI offset (some 0) || jsLtI none offset then
          ({ s with faults := s.faults + 1 }, .outOfRange)
        else
          ({ s with processed := s.processed + 1, hits := s.hits + 1 },
           .translated none)

/-- Outcome of one `stepVirtual` call: exhausted sequence, page hit in a
frame, fault loading into a free frame, or fault replacing a victim frame
(carrying the evicted page, `none` if the frame was empty). -/
inductive VirtOutcome where
  | exhausted
  | hit (frame : Int)
  | fill (frame : Nat)
  | replace (frame : Nat) (evictedPage : Option JsNum)
deriving DecidableEq, Repr

/-- `stepVirtual()` (lines 509-589).  `pageNum` is `curPage`, the hit test is
`vmLookup` (`hasOwnProperty && !== -1`).  Unlike `stepPaging`, every
`lruTime` write here is unconditional (no `algo === LRU` guard in the
source).  On replacement the victim page is unmapped via `ptUnmapEvicted`
before the new page is mapped. -/
def stepVirtual (s : State) : State × VirtOutcome :=
  if s.refs.length ≤ s.index then (s, .exhausted)
  else
    match vmLookup s.pageTable (curPage s) with
    | some f =>
        ({ s with processed := s.processed + 1, hits := s.hits + 1,
                  lruTime := s.lruTime.set f.toNat (s.processed + 1),
                  chartData := s.chartData ++ [1],
                  index := s.index + 1 },
         .hit f)
    | none =>
        match jsIndexOf none s.physFrames with
        | some free =>
            ({ s with processed := s.processed + 1, faults := s.faults + 1,
                      physFrames := s.physFrames.set free (some (curPage s)),
                      pageTable := ptSet s.pageTable (curPage s) free,
                      lruTime := s.lruTime.set free (s.processed + 1),
                      chartData := s.chartData ++ [0],
                      index := s.index + 1 },
             .fill free)
        | none =>
            ({ s with processed := s.processed + 1, faults := s.faults + 1,
                      physFrames := s.physFrames.set (victimOf s s.physCapacity)
                                      (some (curPage s)),
                      pageTable := ptSet (ptUnmapEvicted s.pageTable
                                            (s.physFrames.getD (victimOf s s.physCapacity) none))
                                     (curPage s) (victimOf s s.physCapacity),
                      fifoPointer := if s.algo = .FIFO then (s.fifoPointer + 1) % s.physCapacity
                                     else s.fifoPointer,
                      lruTime := s.lruTime.set (victimOf s s.physCapacity) (s.processed + 1),
                      chartData := s.chartData ++ [0],
                      index := s.index + 1 },
             .replace (victimOf s s.physCapacity)
               (s.physFrames.getD (victimOf s s.physCapacity) none))

/-- Iterated `stepPaging`, discarding the outcomes. -/
def iterPaging : Nat → State → State
  | 0, s => s
  | n + 1, s => iterPaging n (stepPaging s).1

/-- Iterated `stepVirtual`, discarding the outcomes. -/
def iterVirtual : Nat → State → State
  | 0, s => s
  | n + 1, s => iterVirtual n (stepVirtual s).1

/-! Branch equations for the two sequence-driven step functions. -/

/-- Exhausted paging step: the state is returned unchanged. -/
theorem stepPaging_exhausted_eq (s : State) (hex : s.refs.length ≤ s.index) :
    stepPaging s = (s, .exhausted) := by
  simp [stepPaging, hex]

/-- Paging hit step. -/
theorem stepPaging_hit_eq (s : State) (hex : s.index < s.refs.length) {i : Nat}
    (h1 : jsIndexOf (some (curRef s)) s.frames = some i) :
    stepPaging s =
      ({ s with processed := s.processed + 1, hits := s.hits + 1,
                lruTime := if s.algo = .LRU then s.lruTime.set i (s.processed + 1)
                           else s.lruTime,
                chartData := s.chartData ++ [1],
                index := s.index + 1 }, .hit i) := by
  unfold stepPaging
  rw [if_neg (Nat.not_le.mpr hex), h1]

/-- Paging free-slot fill step. -/
theorem stepPaging_fill_eq (s : State) (hex : s.index < s.refs.length)
    (h1 : jsIndexOf (some (curRef s)) s.frames = none) {i : Nat}
    (h2 : jsIndexOf none s.frames = some i) :
    stepPaging s =
      ({ s with processed := s.processed + 1, faults := s.faults + 1,
                frames := s.frames.set i (some (curRef s)),
                lruTime := if s.algo = .LRU then s.lruTime.set i (s.processed + 1)
                           else s.lruTime,
                chartData := s.chartData ++ [0],
                index := s.index + 1 }, .fill i) := by
  unfold stepPaging
  rw [if_neg (Nat.not_le.mpr hex), h1, h2]

/-- Paging replacement step. -/
theorem stepPaging_replace_eq (s : State) (hex : s.index < s.refs.length)
    (h1 : jsIndexOf (some (curRef s)) s.frames = none)
    (h2 : jsIndexOf none s.frames = none) :
    stepPaging s =
      ({ s with processed := s.processed + 1, faults := s.faults + 1,
                frames := s.frames.set (victimOf s s.capacity) (some (curRef s)),
                fifoPointer := if s.algo = .FIFO then (s.fifoPointer + 1) % s.capacity
                               else s.fifoPointer,
                lruTime := if s.algo = .LRU then
                             s.lruTime.set (victimOf s s.capacity) (s.processed + 1)
                           else s.lruTime,
                chartData := s.chartData ++ [0],
                index := s.index + 1 },
       .replace (victimOf s s.capacity) (s.frames.getD (victimOf s s.capacity) none)) := by
  unfold stepPaging
  rw [if_neg (Nat.not_le.mpr hex), h1, h2]

/-- Exhausted virtual step: the state is returned unchanged. -/
theorem stepVirtual_exhausted_eq (s : State) (hex : s.refs.length ≤ s.index) :
    stepVirtual s = (s, .exhausted) := by
  simp [stepVirtual, hex]

/-- Virtual page-hit step: the recency stamp write is unconditional. -/
theorem stepVirtual_hit_eq (s : State) (hex : s.index < s.refs.length) {f : Int}
    (h1 : vmLookup s.pageTable (curPage s) = some f) :
    stepVirtual s =
      ({ s with processed := s.processed + 1, hits := s.hits + 1,
                lruTime := s.lruTime.set f.toNat (s.processed + 1),
                chartData := s.chartData ++ [1],
                index := s.index + 1 }, .hit f) := by
  unfold stepVirtual
  rw [if_neg (Nat.not_le.mpr hex), h1]

/-- Virtual free-frame fill step. -/
theorem stepVirtual_fill_eq (s : State) (hex : s.index < s.refs.length)
    (h1 : vmLookup s.pageTable (curPage s) = none) {i : Nat}
    (h2 : jsIndexOf none s.physFrames = some i) :
    stepVirtual s =
      ({ s with processed := s.processed + 1, faults := s.faults + 1,
                physFrames := s.physFrames.set i (some (curPage s)),
                pageTable := ptSet s.pageTable (curPage s) i,
                lruTime := s.lruTime.set i (s.processed + 1),
                chartData := s.chartData ++ [0],
                index := s.index + 1 }, .fill i) := by
  unfold stepVirtual
  rw [if_neg (Nat.not_le.mpr hex), h1, h2]

/-- Virtual replacement step. -/
theorem stepVirtual_replace_eq (s : State) (hex : s.index < s.refs.length)
    (h1 : vmLookup s.pageTable (curPage s) = none)
    (h2 : jsIndexOf none s.physFrames = none) :
    stepVirtual s =
      ({ s with processed := s.processed + 1, faults := s.faults + 1,
                physFrames := s.physFrames.set (victimOf s s.physCapacity) (some (curPage s)),
                pageTable := ptSet (ptUnmapEvicted s.pageTable
                                      (s.physFrames.getD (victimOf s s.physCapacity) none))
                               (curPage s) (victimOf s s.physCapacity),
                fifoPointer := if s.algo = .FIFO then (s.fifoPointer + 1) % s.physCapacity
                               else s.fifoPointer,
                lruTime := s.lruTime.set (victimOf s s.physCapacity) (s.processed + 1),
                chartData := s.chartData ++ [0],
                index := s.index + 1 },
       .replace (victimOf s s.physCapacity)
         (s.physFrames.getD (victimOf s s.physCapacity) none)) := by
  unfold stepVirtual
  rw [if_neg (Nat.not_le.mpr hex), h1, h2]

/-! Concrete scenario states from the spec's testable properties. -/

/-- Scenario A of the spec: paging, FIFO, capacity 3,
references `1,2,3,4,1,2,5`, freshly loaded. -/
def pagingScenarioA : State :=
  loadPaging 3 ([1, 2, 3, 4, 1, 2, 5].map RVal.num) .FIFO initState

/-- Scenario C of the spec: virtual memory, page size 100, 2 physical
frames, FIFO, references `50,150,250,50`, freshly loaded. -/
def virtScenarioC : State :=
  loadVirtual 100 2 ([50, 150, 250, 50].map RVal.num) .FIFO initState

/-- A one-segment table for segmentation examples: segment `a` with
base 0 and inclusive limit 10, freshly loaded. -/
def segScenario : State :=
  loadSegmentation (fun n => if n = "a" then some (0, 10) else none) .FIFO initState

/-- C2: paging with FIFO, capacity 3, cursor starting at 0, on references
`[1,2,3,4,1,2,5]`: the first three references fill frames to `[1,2,3]`, then
reference 4 evicts slot 0 (value 1), reference 1 evicts slot 1 (value 2),
reference 2 evicts slot 2 (value 3), reference 5 evicts slot 0 (value 4),
ending with 7 faults and 0 hits. -/
theorem pagingScenarioA_trace :
    (stepPaging pagingScenarioA).2 = .fill 0 ∧
    (stepPaging (iterPaging 1 pagingScenarioA)).2 = .fill 1 ∧
    (stepPaging (iterPaging 2 pagingScenarioA)).2 = .fill 2 ∧
    (iterPaging 3 pagingScenarioA).frames =
      [some (.num 1), some (.num 2), some (.num 3)] ∧
    (stepPaging (iterPaging 3 pagingScenarioA)).2 = .replace 0 (some (.num 1)) ∧
    (stepPaging (iterPaging 4 pagingScenarioA)).2 = .replace 1 (some (.num 2)) ∧
    (stepPaging (iterPaging 5 pagingScenarioA)).2 = .replace 2 (some (.num 3)) ∧
    (stepPaging (iterPaging 6 pagingScenarioA)).2 = .replace 0 (some (.num 4)) ∧
    (iterPaging 7 pagingScenarioA).faults = 7 ∧
    (iterPaging 7 pagingScenarioA).hits = 0 := by
  decide

/-- C7: virtual memory with page size 100, 2 physical frames, FIFO, on
references `[50,150,250,50]`: page 0 faults into frame 0, page 1 faults into
frame 1, page 2 faults and evicts page 0 from frame 0 (whose page-table entry
becomes `-1`), and the final access to page 0 faults again (evicting page 1
from frame 1), ending with 4 faults and 0 hits. -/
theorem virtScenarioC_trace :
    (stepVirtual virtScenarioC).2 = .fill 0 ∧
    (iterVirtual 1 virtScenarioC).pageTable (some 0) = some 0 ∧
    (stepVirtual (iterVirtual 1 virtScenarioC)).2 = .fill 1 ∧
    (iterVirtual 2 virtScenarioC).pageTable (some 1) = some 1 ∧
    (stepVirtual (iterVirtual 2 virtScenarioC)).2 = .replace 0 (some (some 0)) ∧
    (iterVirtual 3 virtScenarioC).pageTable (some 0) = some (-1) ∧
    (iterVirtual 3 virtScenarioC).physFrames = [some (some 2), some (some 1)] ∧
    (stepVirtual (iterVirtual 3 virtScenarioC)).2 = .replace 1 (some (some 1)) ∧
    (iterVirtual 4 virtScenarioC).faults = 4 ∧
    (iterVirtual 4 virtScenarioC).hits = 0 := by
  decide

/-- JS `undefined < x` and `NaN < x` are false whatever `x` is. -/
theorem jsLtI_none_left (x : JsNum) : jsLtI none x = false := by
  rcases x with _ | a <;> rfl

/-- C1 counterexample: in a freshly loaded segmentation state the equation
`hits + faults = processed` holds, but after one faulting segmentation access
(unknown segment name `b`) it fails, because `stepSegmentation` increments
`faults` without incrementing `processed`. -/
theorem segFault_breaks_counter_equation :
    segScenario.hits + segScenario.faults = segScenario.processed ∧
    (stepSegmentation "b" (some 3) segScenario).2 = .notFound ∧
    ¬ ((stepSegmentation "b" (some 3) segScenario).1.hits +
         (stepSegmentation "b" (some 3) segScenario).1.faults =
       (stepSegmentation "b" (some 3) segScenario).1.processed) := by
  decide

/-- C1 amended: `hits + faults = processed` is preserved by every `stepPaging`
and `stepVirtual` step and by every successful segmentation translation, but a
faulting segmentation access (a name neither loaded nor inherited from
`Object.prototype`, or an out-of-range offset) increments `faults` only,
leaving `hits + faults` one above `processed`. -/
theorem counters_equation_amended (s : State) (h : s.hits + s.faults = s.processed) :
    ((stepPaging s).1.hits + (stepPaging s).1.faults = (stepPaging s).1.processed) ∧
    ((stepVirtual s).1.hits + (stepVirtual s).1.faults = (stepVirtual s).1.processed) ∧
    (∀ name off ph, (stepSegmentation name off s).2 = .translated ph →
        (stepSegmentation name off s).1.hits + (stepSegmentation name off s).1.faults =
          (stepSegmentation name off s).1.processed) ∧
    (∀ name off, ((stepSegmentation name off s).2 = .notFound ∨
                  (stepSegmentation name off s).2 = .outOfRange) →
        (stepSegmentation name off s).1.hits + (stepSegmentation name off s).1.faults =
          (stepSegmentation name off s).1.processed + 1) := by
  refine ⟨?_, ?_, ?_, ?_⟩
  · by_cases hex : s.refs.length ≤ s.index
    · rw [stepPaging_exhausted_eq s hex]; exact h
    · have hlt := Nat.lt_of_not_le hex
      rcases h1 : jsIndexOf (some (curRef s)) s.frames with _ | i
      · rcases h2 : jsIndexOf (none : Option RVal) s.frames with _ | i
        · rw [stepPaging_replace_eq s hlt h1 h2]; simp; omega
        · rw [stepPaging_fill_eq s hlt h1 h2]; simp; omega
      · rw [stepPaging_hit_eq s hlt h1]; simp; omega
  · by_cases hex : s.refs.length ≤ s.index
    · rw [stepVirtual_exhausted_eq s hex]; exact h
    · have hlt := Nat.lt_of_not_le hex
      rcases h1 : vmLookup s.pageTable (curPage s) with _ | f
      · rcases h2 : jsIndexOf (none : Option JsNum) s.physFrames with _ | i
        · rw [stepVirtual_replace_eq s hlt h1 h2]; simp; omega
        · rw [stepVirtual_fill_eq s hlt h1 h2]; simp; omega
      · rw [stepVirtual_hit_eq s hlt h1]; simp; omega
  · intro name off ph htr
    rcases hseg : s.segments name with _ | ⟨base, limit⟩
    · by_cases hmem : name ∈ protoProps
      · by_cases hneg : jsLtI off (some 0) = true
        · simp [stepSegmentation, jsIn, hseg, hmem, hneg] at htr
        · simp only [Bool.not_eq_true] at hneg
          simp [stepSegmentation, jsIn, hseg, hmem, hneg, jsLtI_none_left]; omega
      · simp [stepSegmentation, jsIn, hseg, hmem] at htr
    · by_cases hr : (jsLtI off (some 0) || jsLtI (some limit) off) = true
      · simp [stepSegmentation, jsIn, hseg, hr] at htr
      · simp only [Bool.not_eq_true] at hr
        simp [stepSegmentation, jsIn, hseg, hr]; omega
  · intro name off hor
    rcases hseg : s.segments name with _ | ⟨base, limit⟩
    · by_cases hmem : name ∈ protoProps
      · by_cases hneg : jsLtI off (some 0) = true
        · simp [stepSegmentation, jsIn, hseg, hmem, hneg]; omega
        · simp only [Bool.not_eq_true] at hneg
          simp [stepSegmentation, jsIn, hseg, hmem, hneg, jsLtI_none_left] at hor
      · simp [stepSegmentation, jsIn, hseg, hmem]; omega
    · by_cases hr : (jsLtI off (some 0) || jsLtI (some limit) off) = true
      · simp [stepSegmentation, jsIn, hseg, hr]; omega
      · simp only [Bool.not_eq_true] at hr
        simp [stepSegmentation, jsIn, hseg, hr] at hor

/-- Witness for `counters_equation_amended` at the initial state. -/
theorem counters_equation_amended_witness :
    (stepPaging initState).1.hits + (stepPaging initState).1.faults =
      (stepPaging initState).1.processed :=
  (counters_equation_amended initState rfl).1

/-- C10: an explicit reset zeroes `processed`, `hits`, `faults`, the sequence
cursor and the FIFO cursor and clears the chart history, but keeps frame
contents, the page table, the recency stamps, the reference sequence, the
segment table and the configuration; consequently re-stepping the same
sequence after a reset can hit on a reference that faulted in the first run
(reference 1 faults into frame 0 on the first run, then hits frame 0 after
reset). -/
theorem reset_keeps_memory_contents :
    (∀ s : State,
      (resetCommon s).processed = 0 ∧ (resetCommon s).hits = 0 ∧
      (resetCommon s).faults = 0 ∧ (resetCommon s).index = 0 ∧
      (resetCommon s).fifoPointer = 0 ∧ (resetCommon s).chartData = [] ∧
      (resetCommon s).frames = s.frames ∧ (resetCommon s).pageTable = s.pageTable ∧
      (resetCommon s).lruTime = s.lruTime ∧ (resetCommon s).physFrames = s.physFrames ∧
      (resetCommon s).refs = s.refs ∧ (resetCommon s).segments = s.segments ∧
      (resetCommon s).algo = s.algo ∧ (resetCommon s).capacity = s.capacity ∧
      (resetCommon s).physCapacity = s.physCapacity ∧
      (resetCommon s).pageSize = s.pageSize) ∧
    (stepPaging (loadPaging 3 [RVal.num 1] .FIFO initState)).2 = .fill 0 ∧
    (stepPaging (resetCommon
        (stepPaging (loadPaging 3 [RVal.num 1] .FIFO initState)).1)).2 = .hit 0 := by
  refine ⟨fun s => ?_, by decide, by decide⟩
  refine ⟨rfl, rfl, rfl, rfl, rfl, rfl, rfl, rfl, rfl, rfl, rfl, rfl, rfl, rfl, rfl, rfl⟩

/-- C6 counterexample: two inputs falsify the claim that every input other
than a known name with a numeric offset in range increments the fault count
and yields no address.  Accessing known segment `a` (base 0, limit 10) with a
non-numeric offset (`Number` gives `NaN`, modelled `none`) passes the range
check, because `NaN < 0` and `NaN > limit` are both false; and accessing the
never-loaded name `toString` with offset 5 also passes, because `in` answers
true via `Object.prototype` and `5 > undefined` is false.  Both accesses are
counted as processed and hit with a `NaN` physical address, and the fault
count is NOT incremented. -/
theorem segNaN_offset_counted_as_hit :
    ((stepSegmentation "a" none segScenario).2 = .translated none ∧
     (stepSegmentation "a" none segScenario).1.faults = segScenario.faults ∧
     (stepSegmentation "a" none segScenario).1.hits = segScenario.hits + 1 ∧
     (stepSegmentation "a" none segScenario).1.processed =
       segScenario.processed + 1) ∧
    (segScenario.segments "toString" = none ∧
     (stepSegmentation "toString" (some 5) segScenario).2 = .translated none ∧
     (stepSegmentation "toString" (some 5) segScenario).1.faults = segScenario.faults ∧
     (stepSegmentation "toString" (some 5) segScenario).1.hits = segScenario.hits + 1 ∧
     (stepSegmentation "toString" (some 5) segScenario).1.processed =
       segScenario.processed + 1) := by
  decide

/-- C6 amended: translating a known segment with a numeric offset in
`[0, limit]` yields `base + offset` and counts processed and hit; a name that
is neither a loaded segment nor inherited from `Object.prototype`, or a known
segment with a numeric offset outside `[0, limit]`, increments only the fault
count and produces no address.  But a non-numeric (`NaN`) offset for a known
segment passes the range check and is counted as processed and hit with a
`NaN` address; and a never-loaded name inherited from `Object.prototype`
(such as `toString`) passes the membership test with `undefined` base and
limit: a negative numeric offset faults out-of-range, while a non-negative
numeric or `NaN` offset is counted as processed and hit with a `NaN`
address. -/
theorem seg_translate_amended (s : State) (name : String) (off : JsNum) :
    (∀ base limit o, s.segments name = some (base, limit) → off = some o →
        0 ≤ o → o ≤ limit →
        stepSegmentation name off s =
          ({ s with processed := s.processed + 1, hits := s.hits + 1 },
           .translated (some (base + o)))) ∧
    (s.segments name = none → name ∉ protoProps →
        stepSegmentation name off s = ({ s with faults := s.faults + 1 }, .notFound)) ∧
    (∀ base limit o, s.segments name = some (base, limit) → off = some o →
        (o < 0 ∨ limit < o) →
        stepSegmentation name off s = ({ s with faults := s.faults + 1 }, .outOfRange)) ∧
    (∀ base limit, s.segments name = some (base, limit) → off = none →
        stepSegmentation name off s =
          ({ s with processed := s.processed + 1, hits := s.hits + 1 },
           .translated none)) ∧
    (∀ o, s.segments name = none → name ∈ protoProps → off = some o → o < 0 →
        stepSegmentation name off s = ({ s with faults := s.faults + 1 }, .outOfRange)) ∧
    (∀ o, s.segments name = none → name ∈ protoProps → off = some o → 0 ≤ o →
        stepSegmentation name off s =
          ({ s with processed := s.processed + 1, hits := s.hits + 1 },
           .translated none)) ∧
    (s.segments name = none → name ∈ protoProps → off = none →
        stepSegmentation name off s =
          ({ s with processed := s.processed + 1, hits := s.hits + 1 },
           .translated none)) := by
  refine ⟨?_, ?_, ?_, ?_, ?_, ?_, ?_⟩
  · rintro base limit o hseg rfl h0 hl
    have hn1 : ¬ (o < 0) := by omega
    have hn2 : ¬ (limit < o) := by omega
    simp [stepSegmentation, jsIn, hseg, jsLtI, hn1, hn2]
  · intro hseg hmem
    simp [stepSegmentation, jsIn, hseg, hmem]
  · rintro base limit o hseg rfl hrange
    have hb : (jsLtI (some o) (some 0) || jsLtI (some limit) (some o)) = true := by
      rcases hrange with h | h <;> simp [jsLtI, h]
    simp [stepSegmentation, jsIn, hseg, hb]
  · rintro base limit hseg rfl
    simp [stepSegmentation, jsIn, hseg, jsLtI]
  · rintro o hseg hmem rfl hneg
    simp [stepSegmentation, jsIn, hseg, hmem, jsLtI, hneg]
  · rintro o hseg hmem rfl h0
    have hn1 : ¬ (o < 0) := by omega
    simp [stepSegmentation, jsIn, hseg, hmem, jsLtI, hn1]
  · rintro hseg hmem rfl
    simp [stepSegmentation, jsIn, hseg, hmem, jsLtI]

/-- Witness for `seg_translate_amended`: in-range translation of `a:3`. -/
theorem seg_translate_amended_witness :
    stepSegmentation "a" (some 3) segScenario =
      ({ segScenario with processed := segScenario.processed + 1,
                          hits := segScenario.hits + 1 },
       .translated (some 3)) :=
  (seg_translate_amended segScenario "a" (some 3)).1 0 10 3 (by decide) rfl
    (by decide) (by decide)

/-- C8 counterexample: in the virtual memory engine under FIFO, the very first
step (a fault filling free frame 0) writes the recency stamp of frame 0
unconditionally: the stamps change from `[0, 0]` to `[1, 0]` although the
policy is FIFO. -/
theorem fifo_virtual_step_updates_stamps :
    virtScenarioC.algo = .FIFO ∧
    virtScenarioC.lruTime = [0, 0] ∧
    (stepVirtual virtScenarioC).1.lruTime = [1, 0] ∧
    ¬ ((stepVirtual virtScenarioC).1.lruTime = virtScenarioC.lruTime) := by
  decide

/-- C8 amended: when the policy is FIFO no `stepPaging` step modifies any
recency stamp (every stamp write there is guarded by `algo === LRU`), but
`stepVirtual` writes the touched frame's recency stamp on every hit,
free-frame fill and replacement unconditionally, whatever the policy. -/
theorem stamps_policy_amended (s : State) :
    (s.algo = .FIFO → (stepPaging s).1.lruTime = s.lruTime) ∧
    (∀ f, s.index < s.refs.length → vmLookup s.pageTable (curPage s) = some f →
        (stepVirtual s).1.lruTime = s.lruTime.set f.toNat (s.processed + 1)) ∧
    (∀ i, s.index < s.refs.length → vmLookup s.pageTable (curPage s) = none →
        jsIndexOf none s.physFrames = some i →
        (stepVirtual s).1.lruTime = s.lruTime.set i (s.processed + 1)) ∧
    (s.index < s.refs.length → vmLookup s.pageTable (curPage s) = none →
        jsIndexOf none s.physFrames = none →
        (stepVirtual s).1.lruTime =
          s.lruTime.set (victimOf s s.physCapacity) (s.processed + 1)) := by
  refine ⟨?_, ?_, ?_, ?_⟩
  · intro hfifo
    have hnl : ¬ (s.algo = .LRU) := by rw [hfifo]; exact fun h => by cases h
    by_cases hex : s.refs.length ≤ s.index
    · rw [stepPaging_exhausted_eq s hex]
    · have hlt := Nat.lt_of_not_le hex
      rcases h1 : jsIndexOf (some (curRef s)) s.frames with _ | i
      · rcases h2 : jsIndexOf (none : Option RVal) s.frames with _ | i
        · rw [stepPaging_replace_eq s hlt h1 h2]; simp [hnl]
        · rw [stepPaging_fill_eq s hlt h1 h2]; simp [hnl]
      · rw [stepPaging_hit_eq s hlt h1]; simp [hnl]
  · intro f hlt h1
    rw [stepVirtual_hit_eq s hlt h1]
  · intro i hlt h1 h2
    rw [stepVirtual_fill_eq s hlt h1 h2]
  · intro hlt h1 h2
    rw [stepVirtual_replace_eq s hlt h1 h2]

/-- Witness for `stamps_policy_amended`: the FIFO paging run of scenario A
leaves the stamps untouched on its first step. -/
theorem stamps_policy_amended_witness :
    (stepPaging pagingScenarioA).1.lruTime = pagingScenarioA.lruTime :=
  (stamps_policy_amended pagingScenarioA).1 rfl

/-- A paging step never changes the loaded reference sequence. -/
theorem stepPaging_refs_eq (s : State) : (stepPaging s).1.refs = s.refs := by
  by_cases hex : s.refs.length ≤ s.index
  · rw [stepPaging_exhausted_eq s hex]
  · have hlt := Nat.lt_of_not_le hex
    rcases hA : jsIndexOf (some (curRef s)) s.frames with _ | i
    · rcases hB : jsIndexOf (none : Option RVal) s.frames with _ | i
      · rw [stepPaging_replace_eq s hlt hA hB]
      · rw [stepPaging_fill_eq s hlt hA hB]
    · rw [stepPaging_hit_eq s hlt hA]

/-- A virtual step never changes the loaded reference sequence. -/
theorem stepVirtual_refs_eq (s : State) : (stepVirtual s).1.refs = s.refs := by
  by_cases hex : s.refs.length ≤ s.index
  · rw [stepVirtual_exhausted_eq s hex]
  · have hlt := Nat.lt_of_not_le hex
    rcases hA : vmLookup s.pageTable (curPage s) with _ | f
    · rcases hB : jsIndexOf (none : Option JsNum) s.physFrames with _ | i
      · rw [stepVirtual_replace_eq s hlt hA hB]
      · rw [stepVirtual_fill_eq s hlt hA hB]
    · rw [stepVirtual_hit_eq s hlt hA]

/-- A paging step keeps `processed ≤ index ≤ refs.length`. -/
theorem stepPaging_bounds (s : State) (h1 : s.processed ≤ s.index)
    (h2 : s.index ≤ s.refs.length) :
    (stepPaging s).1.processed ≤ (stepPaging s).1.index ∧
    (stepPaging s).1.index ≤ (stepPaging s).1.refs.length := by
  by_cases hex : s.refs.length ≤ s.index
  · rw [stepPaging_exhausted_eq s hex]; exact ⟨h1, h2⟩
  · have hlt := Nat.lt_of_not_le hex
    rcases hA : jsIndexOf (some (curRef s)) s.frames with _ | i
    · rcases hB : jsIndexOf (none : Option RVal) s.frames with _ | i
      · rw [stepPaging_replace_eq s hlt hA hB]; simp; omega
      · rw [stepPaging_fill_eq s hlt hA hB]; simp; omega
    · rw [stepPaging_hit_eq s hlt hA]; simp; omega

/-- A virtual step keeps `processed ≤ index ≤ refs.length`. -/
theorem stepVirtual_bounds (s : State) (h1 : s.processed ≤ s.index)
    (h2 : s.index ≤ s.refs.length) :
    (stepVirtual s).1.processed ≤ (stepVirtual s).1.index ∧
    (stepVirtual s).1.index ≤ (stepVirtual s).1.refs.length := by
  by_cases hex : s.refs.length ≤ s.index
  · rw [stepVirtual_exhausted_eq s hex]; exact ⟨h1, h2⟩
  · have hlt := Nat.lt_of_not_le hex
    rcases hA : vmLookup s.pageTable (curPage s) with _ | f
    · rcases hB : jsIndexOf (none : Option JsNum) s.physFrames with _ | i
      · rw [stepVirtual_replace_eq s hlt hA hB]; simp; omega
      · rw [stepVirtual_fill_eq s hlt hA hB]; simp; omega
    · rw [stepVirtual_hit_eq s hlt hA]; simp; omega

/-- Iterated paging steps keep `processed ≤ index ≤ refs.length` and keep the
reference sequence. -/
theorem iterPaging_inv (n : Nat) : ∀ s : State, s.processed ≤ s.index →
    s.index ≤ s.refs.length →
    (iterPaging n s).processed ≤ (iterPaging n s).index ∧
    (iterPaging n s).index ≤ (iterPaging n s).refs.length ∧
    (iterPaging n s).refs = s.refs := by
  induction n with
  | zero => exact fun s h1 h2 => ⟨h1, h2, rfl⟩
  | succ n ih =>
      intro s h1 h2
      have hb := stepPaging_bounds s h1 h2
      have hrec := ih (stepPaging s).1 hb.1 hb.2
      exact ⟨hrec.1, hrec.2.1, by
        show (iterPaging n (stepPaging s).1).refs = s.refs
        rw [hrec.2.2, stepPaging_refs_eq]⟩

/-- Iterated virtual steps keep `processed ≤ index ≤ refs.length` and keep the
reference sequence. -/
theorem iterVirtual_inv (n : Nat) : ∀ s : State, s.processed ≤ s.index →
    s.index ≤ s.refs.length →
    (iterVirtual n s).processed ≤ (iterVirtual n s).index ∧
    (iterVirtual n s).index ≤ (iterVirtual n s).refs.length ∧
    (iterVirtual n s).refs = s.refs := by
  induction n with
  | zero => exact fun s h1 h2 => ⟨h1, h2, rfl⟩
  | succ n ih =>
      intro s h1 h2
      have hb := stepVirtual_bounds s h1 h2
      have hrec := ih (stepVirtual s).1 hb.1 hb.2
      exact ⟨hrec.1, hrec.2.1, by
        show (iterVirtual n (stepVirtual s).1).refs = s.refs
        rw [hrec.2.2, stepVirtual_refs_eq]⟩

/-- C9: when the cursor has reached the end of the reference sequence, a
paging or virtual step returns the terminal exhausted outcome and leaves the
whole engine state unchanged; consequently, starting from a load, `processed`
never exceeds the length of the loaded reference sequence, however many steps
are taken. -/
theorem exhausted_noop_processed_bound (s : State) :
    (s.refs.length ≤ s.index →
       stepPaging s = (s, .exhausted) ∧ stepVirtual s = (s, .exhausted)) ∧
    (∀ cap refs algo n,
       (iterPaging n (loadPaging cap refs algo s)).processed ≤ refs.length) ∧
    (∀ ps pc refs algo n,
       (iterVirtual n (loadVirtual ps pc refs algo s)).processed ≤ refs.length) := by
  refine ⟨fun hex => ⟨stepPaging_exhausted_eq s hex, stepVirtual_exhausted_eq s hex⟩, ?_, ?_⟩
  · intro cap refs algo n
    have h := iterPaging_inv n (loadPaging cap refs algo s) (Nat.le_refl 0) (Nat.zero_le _)
    have hlen : (iterPaging n (loadPaging cap refs algo s)).refs = refs := h.2.2
    calc (iterPaging n (loadPaging cap refs algo s)).processed
        ≤ (iterPaging n (loadPaging cap refs algo s)).index := h.1
      _ ≤ (iterPaging n (loadPaging cap refs algo s)).refs.length := h.2.1
      _ = refs.length := by rw [hlen]
  · intro ps pc refs algo n
    have h := iterVirtual_inv n (loadVirtual ps pc refs algo s) (Nat.le_refl 0) (Nat.zero_le _)
    have hlen : (iterVirtual n (loadVirtual ps pc refs algo s)).refs = refs := h.2.2
    calc (iterVirtual n (loadVirtual ps pc refs algo s)).processed
        ≤ (iterVirtual n (loadVirtual ps pc refs algo s)).index := h.1
      _ ≤ (iterVirtual n (loadVirtual ps pc refs algo s)).refs.length := h.2.1
      _ = refs.length := by rw [hlen]

/-- Witness for `exhausted_noop_processed_bound` at the initial state, whose
empty reference sequence is already exhausted. -/
theorem exhausted_noop_processed_bound_witness :
    stepPaging initState = (initState, .exhausted) :=
  ((exhausted_noop_processed_bound initState).1 (Nat.le_refl 0)).1

/-- C4: on a FIFO replacement miss the victim slot is the FIFO cursor value
held before the step (when the cursor is in range, as it always is from a
load) and the cursor then advances by exactly one modulo capacity; a hit or a
free-slot fill never changes the cursor, and the cursor stays in range.  Both
engines; the virtual engine uses `physCapacity`. -/
theorem fifo_cursor_discipline (s : State) :
    (∀ i, (stepPaging s).2 = .hit i → (stepPaging s).1.fifoPointer = s.fifoPointer) ∧
    (∀ i, (stepPaging s).2 = .fill i → (stepPaging s).1.fifoPointer = s.fifoPointer) ∧
    (s.algo = .FIFO → s.fifoPointer < s.capacity →
       ∀ v e, (stepPaging s).2 = .replace v e →
         v = s.fifoPointer ∧
         (stepPaging s).1.fifoPointer = (s.fifoPointer + 1) % s.capacity) ∧
    (0 < s.capacity → s.fifoPointer < s.capacity →
       (stepPaging s).1.fifoPointer < s.capacity) ∧
    (∀ f, (stepVirtual s).2 = .hit f → (stepVirtual s).1.fifoPointer = s.fifoPointer) ∧
    (∀ i, (stepVirtual s).2 = .fill i → (stepVirtual s).1.fifoPointer = s.fifoPointer) ∧
    (s.algo = .FIFO → s.fifoPointer < s.physCapacity →
       ∀ v e, (stepVirtual s).2 = .replace v e →
         v = s.fifoPointer ∧
         (stepVirtual s).1.fifoPointer = (s.fifoPointer + 1) % s.physCapacity) ∧
    (0 < s.physCapacity → s.fifoPointer < s.physCapacity →
       (stepVirtual s).1.fifoPointer < s.physCapacity) := by
  by_cases hex : s.refs.length ≤ s.index
  · have hp := stepPaging_exhausted_eq s hex
    have hv := stepVirtual_exhausted_eq s hex
    rw [hp, hv]
    exact ⟨fun i h => by simp at h, fun i h => by simp at h,
           fun _ _ v e h => by simp at h, fun _ h => h,
           fun f h => by simp at h, fun i h => by simp at h,
           fun _ _ v e h => by simp at h, fun _ h => h⟩
  · have hlt := Nat.lt_of_not_le hex
    refine ⟨?_, ?_, ?_, ?_, ?_, ?_, ?_, ?_⟩
    · intro i hout
      rcases hA : jsIndexOf (some (curRef s)) s.frames with _ | j
      · rcases hB : jsIndexOf (none : Option RVal) s.frames with _ | j
        · rw [stepPaging_replace_eq s hlt hA hB] at hout; simp at hout
        · rw [stepPaging_fill_eq s hlt hA hB] at hout; simp at hout
      · rw [stepPaging_hit_eq s hlt hA]
    · intro i hout
      rcases hA : jsIndexOf (some (curRef s)) s.frames with _ | j
      · rcases hB : jsIndexOf (none : Option RVal) s.frames with _ | j
        · rw [stepPaging_replace_eq s hlt hA hB] at hout; simp at hout
        · rw [stepPaging_fill_eq s hlt hA hB]
      · rw [stepPaging_hit_eq s hlt hA] at hout; simp at hout
    · intro hfifo hrange v e hout
      rcases hA : jsIndexOf (some (curRef s)) s.frames with _ | j
      · rcases hB : jsIndexOf (none : Option RVal) s.frames with _ | j
        · rw [stepPaging_replace_eq s hlt hA hB] at hout
          simp only [Prod.snd] at hout
          have hv : v = victimOf s s.capacity := by
            cases hout; rfl
          rw [stepPaging_replace_eq s hlt hA hB]
          refine ⟨?_, by simp [hfifo]⟩
          rw [hv]
          simp [victimOf, hfifo, Nat.mod_eq_of_lt hrange]
        · rw [stepPaging_fill_eq s hlt hA hB] at hout; simp at hout
      · rw [stepPaging_hit_eq s hlt hA] at hout; simp at hout
    · intro hcap hrange
      rcases hA : jsIndexOf (some (curRef s)) s.frames with _ | j
      · rcases hB : jsIndexOf (none : Option RVal) s.frames with _ | j
        · rw [stepPaging_replace_eq s hlt hA hB]
          by_cases hfifo : s.algo = .FIFO
          · simp [hfifo]; exact Nat.mod_lt _ hcap
          · simp [hfifo]; exact hrange
        · rw [stepPaging_fill_eq s hlt hA hB]; exact hrange
      · rw [stepPaging_hit_eq s hlt hA]; exact hrange
    · intro f hout
      rcases hA : vmLookup s.pageTable (curPage s) with _ | g
      · rcases hB : jsIndexOf (none : Option JsNum) s.physFrames with _ | j
        · rw [stepVirtual_replace_eq s hlt hA hB] at hout; simp at hout
        · rw [stepVirtual_fill_eq s hlt hA hB] at hout; simp at hout
      · rw [stepVirtual_hit_eq s hlt hA]
    · intro i hout
      rcases hA : vmLookup s.pageTable (curPage s) with _ | g
      · rcases hB : jsIndexOf (none : Option JsNum) s.physFrames with _ | j
        · rw [stepVirtual_replace_eq s hlt hA hB] at hout; simp at hout
        · rw [stepVirtual_fill_eq s hlt hA hB]
      · rw [stepVirtual_hit_eq s hlt hA] at hout; simp at hout
    · intro hfifo hrange v e hout
      rcases hA : vmLookup s.pageTable (curPage s) with _ | g
      · rcases hB : jsIndexOf (none : Option JsNum) s.physFrames with _ | j
        · rw [stepVirtual_replace_eq s hlt hA hB] at hout
          simp only [Prod.snd] at hout
          have hv : v = victimOf s s.physCapacity := by
            cases hout; rfl
          rw [stepVirtual_replace_eq s hlt hA hB]
          refine ⟨?_, by simp [hfifo]⟩
          rw [hv]
          simp [victimOf, hfifo, Nat.mod_eq_of_lt hrange]
        · rw [stepVirtual_fill_eq s hlt hA hB] at hout; simp at hout
      · rw [stepVirtual_hit_eq s hlt hA] at hout; simp at hout
    · intro hcap hrange
      rcases hA : vmLookup s.pageTable (curPage s) with _ | g
      · rcases hB : jsIndexOf (none : Option JsNum) s.physFrames with _ | j
        · rw [stepVirtual_replace_eq s hlt hA hB]
          by_cases hfifo : s.algo = .FIFO
          · simp [hfifo]; exact Nat.mod_lt _ hcap
          · simp [hfifo]; exact hrange
        · rw [stepVirtual_fill_eq s hlt hA hB]; exact hrange
      · rw [stepVirtual_hit_eq s hlt hA]; exact hrange

/-- Witness for `fifo_cursor_discipline`: the first replacement of scenario A
(cursor 0 evicts slot 0, cursor becomes 1). -/
theorem fifo_cursor_discipline_witness :
    (0 : Nat) = (iterPaging 3 pagingScenarioA).fifoPointer ∧
    (stepPaging (iterPaging 3 pagingScenarioA)).1.fifoPointer =
      ((iterPaging 3 pagingScenarioA).fifoPointer + 1) %
        (iterPaging 3 pagingScenarioA).capacity :=
  (fifo_cursor_discipline (iterPaging 3 pagingScenarioA)).2.2.1 (by decide) (by decide)
    0 (some (.num 1)) (by decide)

/-- Scenario B of the spec: paging, LRU, capacity 2, references `1,2,1,3`,
freshly loaded. -/
def pagingScenarioB : State :=
  loadPaging 2 ([1, 2, 1, 3].map RVal.num) .LRU initState

/-- An in-range array read is the `getD` value. -/
theorem get?_eq_some_getD (l : List Nat) (i : Nat) (h : i < l.length) :
    l.get? i = some (l.getD i 0) := by
  rw [List.get?_eq_getElem?, List.getElem?_eq_getElem h]
  simp [List.getD_eq_getElem?_getD, List.getElem?_eq_getElem h]

/-- Invariant of the LRU victim scan: if `r` is the first minimum of the
prefix `[0, i)` and the loop still has to scan `[i, cap)`, it returns the
first index holding the minimum stamp of the whole range `[0, cap)`. -/
theorem lruGo_first_min (lt : List Nat) (cap : Nat) (hlen : cap ≤ lt.length) :
    ∀ (k i r : Nat), i + k = cap → r < i →
      (∀ j, j < i → lt.getD r 0 ≤ lt.getD j 0) →
      (∀ j, j < r → lt.getD r 0 < lt.getD j 0) →
      (lruGo lt (List.range' i k) (r, some (lt.getD r 0))).1 < cap ∧
      (∀ j, j < cap →
        lt.getD (lruGo lt (List.range' i k) (r, some (lt.getD r 0))).1 0 ≤ lt.getD j 0) ∧
      (∀ j, j < (lruGo lt (List.range' i k) (r, some (lt.getD r 0))).1 →
        lt.getD (lruGo lt (List.range' i k) (r, some (lt.getD r 0))).1 0 < lt.getD j 0) := by
  intro k
  induction k with
  | zero =>
      intro i r hik hri hmin hfirst
      simp only [List.range', lruGo]
      exact ⟨by omega, fun j hj => hmin j (by omega), hfirst⟩
  | succ k ih =>
      intro i r hik hri hmin hfirst
      rw [List.range'_succ i k 1]
      simp only [lruGo]
      rw [get?_eq_some_getD lt i (by omega)]
      simp only [jsLtMin, decide_eq_true_eq]
      by_cases ht : lt.getD i 0 < lt.getD r 0
      · rw [if_pos (by simpa using ht)]
        exact ih (i + 1) i (by omega) (by omega)
          (fun j hj => by
            rcases Nat.lt_succ_iff_lt_or_eq.mp hj with h | h
            · exact le_of_lt (lt_of_lt_of_le ht (hmin j h))
            · subst h; exact le_refl _)
          (fun j hj => lt_of_lt_of_le ht (hmin j hj))
      · rw [if_neg (by simpa using ht)]
        exact ih (i + 1) r (by omega) (by omega)
          (fun j hj => by
            rcases Nat.lt_succ_iff_lt_or_eq.mp hj with h | h
            · exact hmin j h
            · subst h; omega)
          hfirst

/-- The `replaceIndex` computed by the LRU scan is the lowest index holding
the minimum recency stamp among slots `0 .. cap-1`. -/
theorem lruSelect_first_min (lt : List Nat) (cap : Nat) (hlen : cap ≤ lt.length)
    (hcap : 0 < cap) :
    lruSelect lt cap < cap ∧
    (∀ j, j < cap → lt.getD (lruSelect lt cap) 0 ≤ lt.getD j 0) ∧
    (∀ j, j < lruSelect lt cap → lt.getD (lruSelect lt cap) 0 < lt.getD j 0) := by
  obtain ⟨k, hk⟩ : ∃ k, cap = k + 1 := ⟨cap - 1, by omega⟩
  subst hk
  unfold lruSelect
  rw [List.range_eq_range', List.range'_succ 0 k 1]
  simp only [lruGo]
  rw [get?_eq_some_getD lt 0 (by omega)]
  simp only [jsLtMin, if_true]
  exact lruGo_first_min lt (k + 1) hlen k 1 0 (by omega) (by omega)
    (fun j hj => by
      have hj0 : j = 0 := by omega
      rw [hj0])
    (fun j hj => by omega)

/-- C5: on an LRU replacement miss (in either engine) the victim slot holds
the minimum recency stamp among slots `0 .. capacity-1`, and every slot of
lower index than the victim holds a strictly larger stamp, i.e. ties on the
minimum are broken by the lowest index, first found scanning ascending. -/
theorem lru_victim_first_min (s : State) :
    (s.algo = .LRU → s.capacity ≤ s.lruTime.length → 0 < s.capacity →
      ∀ v e, (stepPaging s).2 = .replace v e →
        v < s.capacity ∧
        (∀ j, j < s.capacity → s.lruTime.getD v 0 ≤ s.lruTime.getD j 0) ∧
        (∀ j, j < v → s.lruTime.getD v 0 < s.lruTime.getD j 0)) ∧
    (s.algo = .LRU → s.physCapacity ≤ s.lruTime.length → 0 < s.physCapacity →
      ∀ v e, (stepVirtual s).2 = .replace v e →
        v < s.physCapacity ∧
        (∀ j, j < s.physCapacity → s.lruTime.getD v 0 ≤ s.lruTime.getD j 0) ∧
        (∀ j, j < v → s.lruTime.getD v 0 < s.lruTime.getD j 0)) := by
  constructor
  · intro hlru hlen hcap v e hout
    by_cases hex : s.refs.length ≤ s.index
    · rw [stepPaging_exhausted_eq s hex] at hout; simp at hout
    · have hlt := Nat.lt_of_not_le hex
      rcases hA : jsIndexOf (some (curRef s)) s.frames with _ | j
      · rcases hB : jsIndexOf (none : Option RVal) s.frames with _ | j
        · rw [stepPaging_replace_eq s hlt hA hB] at hout
          simp only [Prod.snd] at hout
          have hv : v = victimOf s s.capacity := by cases hout; rfl
          have hsel : v = lruSelect s.lruTime s.capacity := by
            rw [hv]; simp [victimOf, hlru]
          rw [hsel]
          exact lruSelect_first_min s.lruTime s.capacity hlen hcap
        · rw [stepPaging_fill_eq s hlt hA hB] at hout; simp at hout
      · rw [stepPaging_hit_eq s hlt hA] at hout; simp at hout
  · intro hlru hlen hcap v e hout
    by_cases hex : s.refs.length ≤ s.index
    · rw [stepVirtual_exhausted_eq s hex] at hout; simp at hout
    · have hlt := Nat.lt_of_not_le hex
      rcases hA : vmLookup s.pageTable (curPage s) with _ | f
      · rcases hB : jsIndexOf (none : Option JsNum) s.physFrames with _ | j
        · rw [stepVirtual_replace_eq s hlt hA hB] at hout
          simp only [Prod.snd] at hout
          have hv : v = victimOf s s.physCapacity := by cases hout; rfl
          have hsel : v = lruSelect s.lruTime s.physCapacity := by
            rw [hv]; simp [victimOf, hlru]
          rw [hsel]
          exact lruSelect_first_min s.lruTime s.physCapacity hlen hcap
        · rw [stepVirtual_fill_eq s hlt hA hB] at hout; simp at hout
      · rw [stepVirtual_hit_eq s hlt hA] at hout; simp at hout

/-- Witness for `lru_victim_first_min`: scenario B's fourth step, where the
stamps are `[3, 2]` and LRU evicts slot 1 (value 2, minimum stamp). -/
theorem lru_victim_first_min_witness :
    (iterPaging 3 pagingScenarioB).lruTime = [3, 2] ∧
    (stepPaging (iterPaging 3 pagingScenarioB)).2 = .replace 1 (some (.num 2)) ∧
    1 < (iterPaging 3 pagingScenarioB).capacity :=
  ⟨by decide, by decide,
    ((lru_victim_first_min (iterPaging 3 pagingScenarioB)).1 (by decide) (by decide)
      (by decide) 1 (some (.num 2)) (by decide)).1⟩

/-- A successful `jsIndexOf` returns an in-range index holding the searched
value. -/
theorem jsIndexOf_eq_some {α : Type} [DecidableEq α] (a : α) :
    ∀ (l : List α) (i : Nat), jsIndexOf a l = some i → i < l.length ∧ l.get? i = some a := by
  intro l
  induction l with
  | nil => intro i h; exact absurd h (by simp [jsIndexOf])
  | cons x xs ih =>
      intro i h
      unfold jsIndexOf at h
      by_cases hx : x = a
      · rw [if_pos hx] at h
        have hi : i = 0 := by cases h; rfl
        subst hi
        exact ⟨Nat.succ_pos _, by simp [List.get?, hx]⟩
      · rw [if_neg hx] at h
        rcases hq : jsIndexOf a xs with _ | j
        · rw [hq] at h; simp at h
        · rw [hq] at h
          simp only [Option.map_some'] at h
          have hi : i = j + 1 := by cases h; rfl
          subst hi
          obtain ⟨h1, h2⟩ := ih j hq
          exact ⟨Nat.succ_lt_succ h1, by simpa [List.get?] using h2⟩

/-- A failed `jsIndexOf` means no in-range position holds the searched value. -/
theorem jsIndexOf_eq_none {α : Type} [DecidableEq α] (a : α) :
    ∀ l : List α, jsIndexOf a l = none →
      ∀ i, i < l.length → l.get? i ≠ some a := by
  intro l
  induction l with
  | nil => intro _ i hi; simp at hi
  | cons x xs ih =>
      intro h i hi
      unfold jsIndexOf at h
      by_cases hx : x = a
      · rw [if_pos hx] at h; cases h
      · rw [if_neg hx] at h
        rcases hq : jsIndexOf a xs with _ | j
        · cases i with
          | zero =>
              simp only [List.get?]
              exact fun hc => hx (Option.some.inj hc)
          | succ i =>
              simp only [List.get?]
              exact ih hq i (by simpa using hi)
        · rw [hq] at h; simp at h

/-- `getD` agrees with a known `get?` result. -/
theorem getD_eq_of_get? {α : Type} (l : List α) (i : Nat) (d x : α)
    (h : l.get? i = some x) : l.getD i d = x := by
  rw [List.getD_eq_getElem?_getD, ← List.get?_eq_getElem?, h]
  rfl

/-- `vmLookup` after a page-table point write. -/
theorem vmLookup_ptSet (pt : JsNum → Option Int) (k : JsNum) (v : Int) (q : JsNum) :
    vmLookup (ptSet pt k v) q =
      if q = k then (if v = -1 then none else some v) else vmLookup pt q := by
  unfold vmLookup ptSet
  by_cases h : q = k <;> simp [h]

/-- `vmLookup` after unmapping an evicted page: the evicted key becomes
invalid, everything else is untouched. -/
theorem vmLookup_unmap (pt : JsNum → Option Int) (op : JsNum) (q : JsNum)
    (hop : (pt op).isSome) :
    vmLookup (ptUnmapEvicted pt (some op)) q =
      if q = op then none else vmLookup pt q := by
  simp only [ptUnmapEvicted]
  rw [if_pos hop, vmLookup_ptSet]
  by_cases h : q = op
  · simp [h]
  · simp [h]

/-- The LRU scan result is the initial accumulator index or one of the
scanned loop indices. -/
theorem lruGo_fst_bound (lt : List Nat) :
    ∀ (l : List Nat) (acc : Nat × Option Nat),
      (lruGo lt l acc).1 = acc.1 ∨ (lruGo lt l acc).1 ∈ l := by
  intro l
  induction l with
  | nil => intro acc; left; rfl
  | cons i is ih =>
      intro acc
      unfold lruGo
      by_cases hc : jsLtMin (lt.get? i) acc.2 = true
      · rw [if_pos hc]
        rcases ih (i, lt.get? i) with h | h
        · right; rw [h]; exact List.mem_cons_self i is
        · right; exact List.mem_cons_of_mem _ h
      · rw [if_neg hc]
        rcases ih acc with h | h
        · left; exact h
        · right; exact List.mem_cons_of_mem _ h

/-- The LRU scan result is below the capacity. -/
theorem lruSelect_lt (lt : List Nat) (cap : Nat) (hcap : 0 < cap) :
    lruSelect lt cap < cap := by
  unfold lruSelect
  rcases lruGo_fst_bound lt (List.range cap) (0, none) with h | h
  · rw [h]; exact hcap
  · exact List.mem_range.mp h

/-- The replacement victim index is below the capacity, for either policy. -/
theorem victimOf_lt (s : State) (cap : Nat) (hcap : 0 < cap) : victimOf s cap < cap := by
  unfold victimOf
  by_cases hf : s.algo = .FIFO
  · rw [if_pos hf]; exact Nat.mod_lt _ hcap
  · rw [if_neg hf]; exact lruSelect_lt s.lruTime cap hcap

/-- A virtual step never changes the configured physical frame count. -/
theorem stepVirtual_physCapacity_eq (s : State) :
    (stepVirtual s).1.physCapacity = s.physCapacity := by
  by_cases hex : s.refs.length ≤ s.index
  · rw [stepVirtual_exhausted_eq s hex]
  · have hlt := Nat.lt_of_not_le hex
    rcases hA : vmLookup s.pageTable (curPage s) with _ | f
    · rcases hB : jsIndexOf (none : Option JsNum) s.physFrames with _ | i
      · rw [stepVirtual_replace_eq s hlt hA hB]
      · rw [stepVirtual_fill_eq s hlt hA hB]
    · rw [stepVirtual_hit_eq s hlt hA]

/-- C3 invariant: every valid page-table entry is an in-range frame index,
and a page is validly mapped to frame `j` exactly when frame `j` currently
holds that page. -/
def VMInv (s : State) : Prop :=
  (∀ p f, vmLookup s.pageTable p = some f → 0 ≤ f ∧ f.toNat < s.physFrames.length) ∧
  (∀ (p : JsNum) (j : Nat), j < s.physFrames.length →
     (vmLookup s.pageTable p = some ((j : Nat) : Int) ↔
      s.physFrames.get? j = some (some p)))

/-- A fresh virtual-memory load satisfies the page-table invariant: the page
table is empty and every physical frame is `null`. -/
theorem vmInv_load (ps : Int) (pc : Nat) (refs : List RVal) (algo : Algo) (s : State) :
    VMInv (loadVirtual ps pc refs algo s) := by
  constructor
  · intro p f h
    exact absurd h (by simp [loadVirtual, resetCommon, vmLookup])
  · intro p j hj
    constructor
    · intro h
      exact absurd h (by simp [loadVirtual, resetCommon, vmLookup])
    · intro h
      exfalso
      have hj2 : j < pc := by simpa [loadVirtual, resetCommon] using hj
      have hrep : (loadVirtual ps pc refs algo s).physFrames =
          List.replicate pc none := rfl
      rw [hrep, List.get?_eq_getElem?] at h
      simp [List.getElem?_replicate, hj2] at h

/-- One virtual step preserves the page-table invariant (and the frame-count
equation). -/
theorem vmInv_step (s : State) (hlen : s.physFrames.length = s.physCapacity)
    (hcap : 0 < s.physCapacity) (hinv : VMInv s) :
    VMInv (stepVirtual s).1 ∧
    (stepVirtual s).1.physFrames.length = (stepVirtual s).1.physCapacity := by
  by_cases hex : s.refs.length ≤ s.index
  · rw [stepVirtual_exhausted_eq s hex]; exact ⟨hinv, hlen⟩
  · have hlt := Nat.lt_of_not_le hex
    rcases hA : vmLookup s.pageTable (curPage s) with _ | f
    · rcases hB : jsIndexOf (none : Option JsNum) s.physFrames with _ | i
      · -- replacement
        rw [stepVirtual_replace_eq s hlt hA hB]
        have hr : victimOf s s.physCapacity < s.physFrames.length := by
          rw [hlen]; exact victimOf_lt s s.physCapacity hcap
        obtain ⟨x, hgx⟩ : ∃ x, s.physFrames.get? (victimOf s s.physCapacity) = some x :=
          ⟨_, List.get?_eq_get hr⟩
        have hxne : x ≠ none := fun hxn =>
          jsIndexOf_eq_none none s.physFrames hB _ hr (hxn ▸ hgx)
        obtain ⟨op, rfl⟩ : ∃ op, x = some op := Option.ne_none_iff_exists'.mp hxne
        have holdp : s.physFrames.getD (victimOf s s.physCapacity) none = some op :=
          getD_eq_of_get? _ _ _ _ hgx
        have hopmap : vmLookup s.pageTable op = some ((victimOf s s.physCapacity : Nat) : Int) :=
          (hinv.2 op _ hr).mpr hgx
        have hpt_op : (s.pageTable op).isSome := by
          unfold vmLookup at hopmap
          rcases hpo : s.pageTable op with _ | g
          · rw [hpo] at hopmap; cases hopmap
          · simp [hpo]
        have hne : op ≠ curPage s := fun he => by
          rw [he, hA] at hopmap; cases hopmap
        rw [holdp]
        refine ⟨⟨?_, ?_⟩, by simp [hlen]⟩
        · intro p f2 h
          rw [vmLookup_ptSet] at h
          rw [List.length_set]
          by_cases hp : p = curPage s
          · rw [if_pos hp,
              if_neg (show ¬ ((victimOf s s.physCapacity : Nat) : Int) = -1 by omega)] at h
            have hf2 := Option.some.inj h
            subst hf2
            exact ⟨Int.natCast_nonneg _, by simpa using hr⟩
          · rw [if_neg hp, vmLookup_unmap _ _ _ hpt_op] at h
            by_cases hpo2 : p = op
            · rw [if_pos hpo2] at h; cases h
            · rw [if_neg hpo2] at h; exact hinv.1 p f2 h
        · intro p j hj
          rw [List.length_set] at hj
          rw [vmLookup_ptSet, List.get?_set_of_lt' _ _ hr]
          by_cases hp : p = curPage s
          · rw [if_pos hp,
              if_neg (show ¬ ((victimOf s s.physCapacity : Nat) : Int) = -1 by omega)]
            by_cases hrj : victimOf s s.physCapacity = j
            · rw [if_pos hrj, hp, hrj]
              simp
            · rw [if_neg hrj]
              constructor
              · intro hc
                exact absurd (by exact_mod_cast Option.some.inj hc) hrj
              · intro hfr
                exfalso
                have h2 := (hinv.2 p j hj).mpr hfr
                rw [hp, hA] at h2
                cases h2
          · rw [if_neg hp, vmLookup_unmap _ _ _ hpt_op]
            by_cases hpo2 : p = op
            · rw [if_pos hpo2]
              by_cases hrj : victimOf s s.physCapacity = j
              · rw [if_pos hrj]
                constructor
                · intro hc; cases hc
                · intro hfr
                  have hcp : curPage s = p := Option.some.inj (Option.some.inj hfr)
                  exact absurd (by rw [← hpo2]; exact hcp.symm) hne
              · rw [if_neg hrj]
                constructor
                · intro hc; cases hc
                · intro hfr
                  exfalso
                  have h2 := (hinv.2 p j hj).mpr hfr
                  rw [hpo2] at h2
                  exact hrj (by exact_mod_cast Option.some.inj (hopmap.symm.trans h2))
            · rw [if_neg hpo2]
              by_cases hrj : victimOf s s.physCapacity = j
              · rw [if_pos hrj]
                constructor
                · intro hL
                  exfalso
                  have h2 := (hinv.2 p j hj).mp (by rw [← hrj] at hL ⊢; exact hL)
                  rw [← hrj, hgx] at h2
                  exact hpo2 (Option.some.inj (Option.some.inj h2)).symm
                · intro hfr
                  exact absurd (Option.some.inj (Option.some.inj hfr)).symm hp
              · rw [if_neg hrj]
                exact hinv.2 p j hj
      · -- fill into a free frame
        rw [stepVirtual_fill_eq s hlt hA hB]
        obtain ⟨hilen, hslot⟩ := jsIndexOf_eq_some none s.physFrames i hB
        refine ⟨⟨?_, ?_⟩, by simp [hlen]⟩
        · intro p f2 h
          rw [vmLookup_ptSet] at h
          rw [List.length_set]
          by_cases hp : p = curPage s
          · rw [if_pos hp, if_neg (show ¬ ((i : Nat) : Int) = -1 by omega)] at h
            have hf2 := Option.some.inj h
            subst hf2
            exact ⟨Int.natCast_nonneg _, by simpa using hilen⟩
          · rw [if_neg hp] at h
            exact hinv.1 p f2 h
        · intro p j hj
          rw [List.length_set] at hj
          rw [vmLookup_ptSet, List.get?_set_of_lt' _ _ hilen]
          by_cases hp : p = curPage s
          · rw [if_pos hp, if_neg (show ¬ ((i : Nat) : Int) = -1 by omega)]
            by_cases hij : i = j
            · rw [if_pos hij, hp, hij]
              simp
            · rw [if_neg hij]
              constructor
              · intro hc
                exact absurd (by exact_mod_cast Option.some.inj hc) hij
              · intro hfr
                exfalso
                have h2 := (hinv.2 p j hj).mpr hfr
                rw [hp, hA] at h2
                cases h2
          · rw [if_neg hp]
            by_cases hij : i = j
            · rw [if_pos hij]
              constructor
              · intro hL
                exfalso
                have h2 := (hinv.2 p j hj).mp hL
                rw [← hij, hslot] at h2
                cases h2
              · intro hfr
                exact absurd (Option.some.inj (Option.some.inj hfr)).symm hp
            · rw [if_neg hij]
              exact hinv.2 p j hj
    · -- hit: frames and page table are unchanged
      rw [stepVirtual_hit_eq s hlt hA]
      exact ⟨⟨hinv.1, hinv.2⟩, hlen⟩

/-- C3: in the virtual memory engine, starting from a load with at least one
physical frame, after every number of steps the page table maps a page to a
valid (non `-1`) frame index exactly when that page is the current occupant
of that physical frame (`VMInv`): a load records the page's frame, and an
eviction flips the victim page's entry to `-1` before mapping the new page. -/
theorem pagetable_iff_frames (ps : Int) (pc : Nat) (refs : List RVal) (algo : Algo)
    (s : State) (hpc : 0 < pc) (n : Nat) :
    VMInv (iterVirtual n (loadVirtual ps pc refs algo s)) := by
  have main : ∀ (m : Nat) (t : State), VMInv t →
      t.physFrames.length = t.physCapacity → 0 < t.physCapacity →
      VMInv (iterVirtual m t) := by
    intro m
    induction m with
    | zero => exact fun t h1 _ _ => h1
    | succ m ih =>
        intro t h1 h2 h3
        have hstep := vmInv_step t h2 h3 h1
        have hcap2 : 0 < (stepVirtual t).1.physCapacity := by
          rw [stepVirtual_physCapacity_eq]; exact h3
        exact ih (stepVirtual t).1 hstep.1 hstep.2 hcap2
  exact main n (loadVirtual ps pc refs algo s) (vmInv_load ps pc refs algo s)
    (by simp [loadVirtual, resetCommon]) (by simpa [loadVirtual, resetCommon] using hpc)

/-- Witness for `pagetable_iff_frames`: scenario C after the eviction step. -/
theorem pagetable_iff_frames_witness :
    VMInv (iterVirtual 3 (loadVirtual 100 2 ([50, 150, 250, 50].map RVal.num)
      .FIFO initState)) :=
  pagetable_iff_frames 100 2 ([50, 150, 250, 50].map RVal.num) .FIFO initState
    (by decide) 3

end MemVis
